import Mathlib

/-!
Shallow embedding of the six-trading repository (Rust) in Lean 4, together
with theorems settling the specification claims.

Conventions of the embedding:
* `f64` values are modelled as `ℚ` (exact rationals); decimal constants of
  the source such as `0.001` become the exact rationals `1/1000`.  Where a
  claim is specifically about NaN behaviour of `partial_cmp`, a second,
  NaN-aware value type `FV` is used.
* `u64` values are modelled as `Nat`.
* Wall-clock quantities (`std::time::Instant`) are modelled by passing the
  relevant instant or elapsed duration as an explicit parameter.
* The simulation balance map of `ExecutionManager` only ever holds the keys
  `"USDT"` and `"BTC"` (it is seeded with exactly these and no other key is
  inserted), so it is modelled as a record with an `usdt` and a `btc` field.
-/

namespace SixTrading

/-- `strategy::Signal` (src/src/strategy/mod.rs): Buy / Sell / Cancel.
Prices are `Option ℚ` mirroring `Option<f64>`. -/
inductive Signal where
  | Buy (symbol : String) (price : Option ℚ) (quantity : ℚ)
  | Sell (symbol : String) (price : Option ℚ) (quantity : ℚ)
  | Cancel (symbol : String) (order_id : Nat)
  deriving DecidableEq, Repr

/-- `strategy::Opportunity` (src/src/strategy/mod.rs). -/
structure Opportunity where
  id : String
  signal : Signal
  score : ℚ
  risk_score : ℚ
  reason : String
  timestamp : Nat
  deriving DecidableEq, Repr

/-- `strategy::RiskReport` (src/src/strategy/mod.rs). -/
structure RiskReport where
  total_risk : ℚ
  leverage_risk : ℚ
  drawdown_warning : Bool
  recommended_max_size : ℚ
  deriving DecidableEq, Repr

/-- `RiskManager::analyze_opportunities` (src/src/strategy/risk.rs, lines 7-36).
The `AppState` argument of the source is unused (`_state`) and therefore
omitted. -/
def analyze_opportunities (opportunities : List Opportunity) :
    List Opportunity × RiskReport :=
  let total_risk : ℚ := if opportunities.length > 5 then 8/10 else 3/10
  let leverage_risk : ℚ := 1/10
  let drawdown_warning : Bool := decide (total_risk > 7/10)
  let processed_opps := opportunities.map (fun opp =>
    let opp := if opp.score > 8/10
      then { opp with risk_score := opp.risk_score * (8/10) } else opp
    if drawdown_warning
      then { opp with risk_score := opp.risk_score * (15/10) } else opp)
  (processed_opps,
   { total_risk := total_risk, leverage_risk := leverage_risk,
     drawdown_warning := drawdown_warning, recommended_max_size := 5/1000 })

/-- One step of Rust's `Iterator::max_by` over scores: `core::cmp::max_by`
keeps the accumulator only when the comparator says `Greater`, so on a tie
the later element wins.  Over `ℚ` the comparator
`a.score.partial_cmp(&b.score).unwrap()` is total. -/
def maxByScoreStep (acc : Option Opportunity) (x : Opportunity) :
    Option Opportunity :=
  match acc with
  | none => some x
  | some a => if x.score < a.score then some a else some x

/-- Rust's `Iterator::max_by(|a, b| a.score.partial_cmp(&b.score).unwrap())`
over a list of opportunities (ℚ scores, so `unwrap` cannot fail). -/
def maxByScore (l : List Opportunity) : Option Opportunity :=
  l.foldl maxByScoreStep none

/-- `RiskManager::select_best_trade` (src/src/strategy/risk.rs, lines 38-44):
filter to `risk_score < 0.5`, take the maximum by `score`, return its
signal. -/
def select_best_trade (opportunities : List Opportunity) : Option Signal :=
  (maxByScore (opportunities.filter (fun o => o.risk_score < 1/2))).map
    (fun o => o.signal)

/-! ### NaN-aware model of `f64` for the `partial_cmp(..).unwrap()` claim -/

/-- An `f64` score value that may be NaN. -/
inductive FV where
  | nan
  | num (q : ℚ)
  deriving DecidableEq, Repr

/-- `f64::partial_cmp`: `none` iff at least one operand is NaN. -/
def fcmp : FV → FV → Option Ordering
  | FV.nan, _ => none
  | _, FV.nan => none
  | FV.num a, FV.num b => some (compare a b)

/-- `x < 0.5` on `f64`: false whenever `x` is NaN. -/
def fvLtHalf : FV → Bool
  | FV.nan => false
  | FV.num q => decide (q < 1/2)

/-- An opportunity whose float fields keep their possible-NaN nature. -/
structure OpportunityF where
  signal : Signal
  score : FV
  risk_score : FV
  deriving DecidableEq, Repr

/-- One `max_by` step where the comparator is
`a.score.partial_cmp(&b.score).unwrap()`: `unwrap` on `None` panics,
modelled as `Except.error`. -/
def maxByScoreStepF (acc : Option OpportunityF) (x : OpportunityF) :
    Except Unit (Option OpportunityF) :=
  match acc with
  | none => Except.ok (some x)
  | some a =>
    match fcmp a.score x.score with
    | none => Except.error ()
    | some Ordering.gt => Except.ok (some a)
    | some _ => Except.ok (some x)

/-- `max_by` with the panicking comparator, threaded through `Except`. -/
def maxByScoreF (l : List OpportunityF) : Except Unit (Option OpportunityF) :=
  l.foldlM maxByScoreStepF none

/-- `RiskManager::select_best_trade` with NaN-faithful floats: the result is
`Except.error ()` exactly when the `unwrap` inside the comparator panics. -/
def select_best_tradeF (opportunities : List OpportunityF) :
    Except Unit (Option Signal) :=
  (maxByScoreF (opportunities.filter (fun o => fvLtHalf o.risk_score))).map
    (Option.map (fun o => o.signal))

/-! ### Execution simulation (src/src/execution/mod.rs) -/

/-- `execution::PositionInfo` (src/src/execution/mod.rs). -/
structure PositionInfo where
  symbol : String
  amount : ℚ
  entry_price : ℚ
  unrealized_pnl : ℚ
  market_type : String
  side : String
  deriving DecidableEq, Repr

/-- The simulation-mode ledger of `ExecutionManager`: the `sim_balances` map
(which only ever holds the keys `"USDT"` and `"BTC"`) and `sim_positions`. -/
structure SimState where
  usdt : ℚ
  btc : ℚ
  positions : List PositionInfo
  deriving DecidableEq, Repr

/-- The ledger seeded by `ExecutionManager::new`: USDT = 10000, BTC = 0, no
positions. -/
def SimState.initial : SimState :=
  { usdt := 10000, btc := 0, positions := [] }

/-- Blend a Buy of total cost `cost` and quantity `quantity` into the
position list, exactly as the simulation Buy branch does: either grow the
first position with the matching symbol using the size-weighted average, or
push a fresh position with `entry_price = cost / quantity`. -/
def buyUpdatePositions (symbol : String) (quantity cost : ℚ) :
    List PositionInfo → List PositionInfo
  | [] => [{ symbol := symbol, amount := quantity,
             entry_price := cost / quantity, unrealized_pnl := 0,
             market_type := "Spot", side := "Long" }]
  | p :: rest =>
    if p.symbol = symbol then
      let total_cost := p.amount * p.entry_price + cost
      let amount := p.amount + quantity
      { p with amount := amount, entry_price := total_cost / amount } :: rest
    else
      p :: buyUpdatePositions symbol quantity cost rest

/-- Decrement the first position with the matching symbol by `quantity` and
compute the realized PnL `= (revenue - fee) - entry_price * quantity`;
positions left with `amount <= 0.000001` are removed.  Returns the new list
and the PnL (0 if no position matches), as in the simulation Sell branch. -/
def sellUpdatePositions (symbol : String) (quantity net_revenue : ℚ) :
    List PositionInfo → List PositionInfo × ℚ
  | [] => ([], 0)
  | p :: rest =>
    if p.symbol = symbol then
      let pnl := net_revenue - p.entry_price * quantity
      let amount := p.amount - quantity
      if amount ≤ 1/1000000 then (rest, pnl)
      else ({ p with amount := amount } :: rest, pnl)
    else
      let (rest, pnl) := sellUpdatePositions symbol quantity net_revenue rest
      (p :: rest, pnl)

/-- `ExecutionManager::execute`, simulation branch
(src/src/execution/mod.rs, lines 103-171).  Returns the new ledger and the
realized PnL the call returns (`Ok(realized_pnl)`).  The source order is
kept faithfully; in particular the Sell branch decrements the BTC balance
before it checks the price hint. -/
def execute (signal : Signal) (st : SimState) : SimState × ℚ :=
  match signal with
  | Signal.Buy symbol price quantity =>
    let est_price := price.getD 0
    if est_price = 0 then (st, 0)
    else
      let fee := quantity * est_price * (1/1000)
      let cost := quantity * est_price + fee
      if st.usdt ≥ cost then
        ({ usdt := st.usdt - cost, btc := st.btc + quantity,
           positions := buyUpdatePositions symbol quantity cost st.positions },
         0)
      else (st, 0)
  | Signal.Sell symbol price quantity =>
    if st.btc ≥ quantity then
      let st := { st with btc := st.btc - quantity }
      let est_price := price.getD 0
      if est_price = 0 then (st, 0)
      else
        let revenue := quantity * est_price
        let fee := revenue * (1/1000)
        let st := { st with usdt := st.usdt + (revenue - fee) }
        let (positions, realized_pnl) :=
          sellUpdatePositions symbol quantity (revenue - fee) st.positions
        ({ st with positions := positions }, realized_pnl)
    else (st, 0)
  | Signal.Cancel _ _ => (st, 0)

/-! ### State machine (src/src/state_machine/mod.rs) -/

/-- `SystemState` (src/src/state_machine/mod.rs). -/
inductive SystemState where
  | Booting
  | Accumulating
  | Analyzing
  | Trading
  | Cooldown
  deriving DecidableEq, Repr

/-- `SystemState::to_index`. -/
def SystemState.to_index : SystemState → Fin 5
  | SystemState.Booting => 0
  | SystemState.Accumulating => 1
  | SystemState.Analyzing => 2
  | SystemState.Trading => 3
  | SystemState.Cooldown => 4

/-- `StateMachine` (src/src/state_machine/mod.rs).  `last_transition_time`
is an abstract instant in milliseconds; the 5x5 counter matrices are
functions on indices. -/
structure StateMachine where
  current_state : SystemState
  last_transition_time : Nat
  transition_matrix : Fin 5 → Fin 5 → Nat
  inferred_matrix : Fin 5 → Fin 5 → ℚ

/-- `StateMachine::new`, at boot instant `now`. -/
def StateMachine.new (now : Nat) : StateMachine :=
  { current_state := SystemState.Booting, last_transition_time := now,
    transition_matrix := fun _ _ => 0, inferred_matrix := fun _ _ => 0 }

/-- `StateMachine::transition_to` (src/src/state_machine/mod.rs,
lines 63-75); `Instant::now()` is passed in as `now`. -/
def transition_to (m : StateMachine) (new_state : SystemState) (now : Nat) :
    StateMachine :=
  if m.current_state ≠ new_state then
    let from_idx := m.current_state.to_index
    let to_idx := new_state.to_index
    { m with
      transition_matrix := fun i j =>
        if i = from_idx ∧ j = to_idx then m.transition_matrix i j + 1
        else m.transition_matrix i j,
      current_state := new_state,
      last_transition_time := now }
  else m

/-- `StateMachine::is_stable` (src/src/state_machine/mod.rs, lines 139-144).
`elapsed_ms` is the elapsed duration since `last_transition_time` in
milliseconds; `Duration::as_secs()` truncates to whole seconds, hence
`elapsed_ms / 1000`. -/
def is_stable (current : SystemState) (elapsed_ms : Nat) : Bool :=
  match current with
  | SystemState.Accumulating => decide (elapsed_ms / 1000 > 5)
  | _ => true

/-! ### Data filter (src/src/market_data/filter.rs) -/

/-- `binance::model::TradeEvent`, restricted to the fields the filter
reads.  `price` is the already-parsed value (`parse::<f64>().unwrap_or(0.0)`
in the source). -/
structure TradeEvent where
  trade_id : Nat
  event_time : Nat
  price : ℚ
  deriving DecidableEq, Repr

/-- `binance::model::AggrTradesEvent`, restricted to the fields the filter
reads. -/
structure AggrTradesEvent where
  aggregated_trade_id : Nat
  event_time : Nat
  price : ℚ
  deriving DecidableEq, Repr

/-- `market_data::MarketEvent` (src/src/market_data/mod.rs); the
`OrderBook` and `DepthUpdate` variants, which the filter passes through
unchanged, are collapsed into `Other`. -/
inductive MarketEvent where
  | Trade (t : TradeEvent)
  | AggrTrade (a : AggrTradesEvent)
  | Other
  deriving DecidableEq, Repr

/-- `DataFilter` (src/src/market_data/filter.rs). -/
structure DataFilter where
  last_trade_id : Nat
  last_agg_trade_id : Nat
  last_timestamp : Nat
  last_price : Option ℚ
  outlier_threshold : ℚ
  total_received : Nat
  duplicate_count : Nat
  out_of_order_count : Nat
  outlier_count : Nat
  deriving DecidableEq, Repr

/-- `DataFilter::new`. -/
def DataFilter.new (outlier_threshold : ℚ) : DataFilter :=
  { last_trade_id := 0, last_agg_trade_id := 0, last_timestamp := 0,
    last_price := none, outlier_threshold := outlier_threshold,
    total_received := 0, duplicate_count := 0, out_of_order_count := 0,
    outlier_count := 0 }

/-- `DataFilter::filter_trade` (src/src/market_data/filter.rs,
lines 43-73): duplicate check, then advance `last_trade_id`; out-of-order
check, then advance `last_timestamp`; outlier check, then record
`last_price`. -/
def filter_trade (f : DataFilter) (trade : TradeEvent) : Bool × DataFilter :=
  if trade.trade_id ≤ f.last_trade_id ∧ f.last_trade_id ≠ 0 then
    (false, { f with duplicate_count := f.duplicate_count + 1 })
  else
    let f := { f with last_trade_id := trade.trade_id }
    if trade.event_time < f.last_timestamp ∧ f.last_timestamp ≠ 0 then
      (false, { f with out_of_order_count := f.out_of_order_count + 1 })
    else
      let f := { f with last_timestamp := trade.event_time }
      match f.last_price with
      | some lp =>
        if |trade.price - lp| / lp > f.outlier_threshold then
          (false, { f with outlier_count := f.outlier_count + 1 })
        else (true, { f with last_price := some trade.price })
      | none => (true, { f with last_price := some trade.price })

/-- `DataFilter::filter_agg_trade` (src/src/market_data/filter.rs,
lines 75-105): same shape as `filter_trade` but keyed on
`aggregated_trade_id` / `last_agg_trade_id`. -/
def filter_agg_trade (f : DataFilter) (agg : AggrTradesEvent) :
    Bool × DataFilter :=
  if agg.aggregated_trade_id ≤ f.last_agg_trade_id ∧ f.last_agg_trade_id ≠ 0
  then
    (false, { f with duplicate_count := f.duplicate_count + 1 })
  else
    let f := { f with last_agg_trade_id := agg.aggregated_trade_id }
    if agg.event_time < f.last_timestamp ∧ f.last_timestamp ≠ 0 then
      (false, { f with out_of_order_count := f.out_of_order_count + 1 })
    else
      let f := { f with last_timestamp := agg.event_time }
      match f.last_price with
      | some lp =>
        if |agg.price - lp| / lp > f.outlier_threshold then
          (false, { f with outlier_count := f.outlier_count + 1 })
        else (true, { f with last_price := some agg.price })
      | none => (true, { f with last_price := some agg.price })

/-- `DataFilter::should_process` (src/src/market_data/filter.rs,
lines 33-41): bumps `total_received` and dispatches on the event kind. -/
def should_process (f : DataFilter) (event : MarketEvent) :
    Bool × DataFilter :=
  let f := { f with total_received := f.total_received + 1 }
  match event with
  | MarketEvent.Trade trade => filter_trade f trade
  | MarketEvent.AggrTrade agg => filter_agg_trade f agg
  | MarketEvent.Other => (true, f)

/-- Run `should_process` over a whole event stream, keeping the final
filter state. -/
def processEvents (f : DataFilter) : List MarketEvent → DataFilter
  | [] => f
  | e :: rest => processEvents (should_process f e).2 rest

/-- `DataFilter::get_quality_score` (src/src/market_data/filter.rs,
lines 107-111).  The `u64` subtraction `total_received - bad` is `Nat`
subtraction. -/
def get_quality_score (f : DataFilter) : ℚ :=
  if f.total_received = 0 then 100
  else
    let bad := f.duplicate_count + f.out_of_order_count + f.outlier_count
    ((f.total_received - bad : ℕ) : ℚ) / (f.total_received : ℚ) * 100

/-! ### Historical downloader chunking (src/src/market_data/downloader.rs) -/

/-- The aggTrades window ceiling `MAX_WINDOW_MS` of
`fetch_and_save_range_public`. -/
def MAX_WINDOW_MS : Nat := 3600000

/-- The chunk computation of `HistoricalDownloader::fetch_and_save_range_public`
(src/src/market_data/downloader.rs, lines 123-135): starting at `start_ts`,
repeatedly emit `(chunk_start, min (chunk_start + MAX_WINDOW_MS) end_ts)`
until `chunk_start` reaches `end_ts`. -/
def chunks (start_ts end_ts : Nat) : List (Nat × Nat) :=
  if _h : start_ts < end_ts then
    (start_ts, min (start_ts + MAX_WINDOW_MS) end_ts) ::
      chunks (min (start_ts + MAX_WINDOW_MS) end_ts) end_ts
  else []
termination_by end_ts - start_ts
decreasing_by
  simp only [MAX_WINDOW_MS]
  omega

/-- The windows consecutively cover `[s, e)`: the first starts at `s`,
each window is nonempty and starts where the previous one ended, and the
last ends at `e`. -/
inductive isConsecutiveCover : Nat → Nat → List (Nat × Nat) → Prop where
  | nil (e : Nat) : isConsecutiveCover e e []
  | cons (s e b : Nat) (rest : List (Nat × Nat)) (hlt : s < b)
      (hrest : isConsecutiveCover b e rest) :
      isConsecutiveCover s e ((s, b) :: rest)

/-- Opportunity A of the spec's tie-breaker example:
`{score: 0.9, risk: 0.4}`, carrying a Buy signal. -/
def oppA : Opportunity :=
  { id := "A", signal := Signal.Buy "BTCUSDT" (some 100) 1,
    score := 9/10, risk_score := 4/10, reason := "A", timestamp := 0 }

/-- Opportunity B of the spec's tie-breaker example:
`{score: 0.9, risk: 0.6}`, carrying a Sell signal (distinct from A's). -/
def oppB : Opportunity :=
  { id := "B", signal := Signal.Sell "BTCUSDT" (some 100) 1,
    score := 9/10, risk_score := 6/10, reason := "B", timestamp := 1 }

/-! ## Theorems -/

/-- Folding `maxByScoreStep` from a `some` accumulator never yields
`none`. -/
theorem foldl_maxByScoreStep_isSome (l : List Opportunity) (a : Opportunity) :
    ∃ b, l.foldl maxByScoreStep (some a) = some b := by
  induction l generalizing a with
  | nil => exact ⟨a, rfl⟩
  | cons x rest ih =>
    by_cases h : x.score < a.score
    · simpa [maxByScoreStep, h] using ih a
    · simpa [maxByScoreStep, h] using ih x

/-- `max_by` returns `none` exactly on the empty list. -/
theorem maxByScore_eq_none_iff (l : List Opportunity) :
    maxByScore l = none ↔ l = [] := by
  cases l with
  | nil => simp [maxByScore]
  | cons x rest =>
    obtain ⟨b, hb⟩ := foldl_maxByScoreStep_isSome rest x
    simp [maxByScore, maxByScoreStep, hb]

/-- Characterisation of the fold behind `max_by`: the result is the LAST
maximal element — everything before it scores at most as much, everything
after it scores strictly less. -/
theorem foldl_maxByScoreStep_spec (l : List Opportunity) :
    ∀ a0 a : Opportunity, l.foldl maxByScoreStep (some a0) = some a →
      (a = a0 ∧ ∀ b ∈ l, b.score < a0.score) ∨
      (∃ l1 l2, l = l1 ++ a :: l2 ∧ a0.score ≤ a.score ∧
        (∀ b ∈ l1, b.score ≤ a.score) ∧ ∀ b ∈ l2, b.score < a.score) := by
  induction l with
  | nil =>
    intro a0 a h
    simp only [List.foldl_nil, Option.some.injEq] at h
    exact Or.inl ⟨h.symm, by simp⟩
  | cons x rest ih =>
    intro a0 a h
    rw [List.foldl_cons] at h
    by_cases hx : x.score < a0.score
    · have h' : rest.foldl maxByScoreStep (some a0) = some a := by
        simpa [maxByScoreStep, hx] using h
      rcases ih a0 a h' with ⟨rfl, hall⟩ | ⟨l1, l2, rfl, hle, h1, h2⟩
      · refine Or.inl ⟨rfl, ?_⟩
        intro b hb
        rcases List.mem_cons.mp hb with rfl | hb
        · exact hx
        · exact hall b hb
      · refine Or.inr ⟨x :: l1, l2, by simp, hle, ?_, h2⟩
        intro b hb
        rcases List.mem_cons.mp hb with rfl | hb
        · exact le_of_lt (lt_of_lt_of_le hx hle)
        · exact h1 b hb
    · have h' : rest.foldl maxByScoreStep (some x) = some a := by
        simpa [maxByScoreStep, hx] using h
      push_neg at hx
      rcases ih x a h' with ⟨rfl, hall⟩ | ⟨l1, l2, rfl, hle, h1, h2⟩
      · exact Or.inr ⟨[], rest, rfl, hx, by simp, hall⟩
      · refine Or.inr ⟨x :: l1, l2, by simp, le_trans hx hle, ?_, h2⟩
        intro b hb
        rcases List.mem_cons.mp hb with rfl | hb
        · exact hle
        · exact h1 b hb

/-- `maxByScore l = some a` decomposes `l` around the last maximal
element `a`. -/
theorem maxByScore_spec (l : List Opportunity) (a : Opportunity)
    (h : maxByScore l = some a) :
    ∃ l1 l2, l = l1 ++ a :: l2 ∧ (∀ b ∈ l1, b.score ≤ a.score) ∧
      ∀ b ∈ l2, b.score < a.score := by
  cases l with
  | nil => simp [maxByScore] at h
  | cons x rest =>
    rw [maxByScore, List.foldl_cons] at h
    replace h : rest.foldl maxByScoreStep (some x) = some a := by
      simpa [maxByScoreStep] using h
    rcases foldl_maxByScoreStep_spec rest x a h with
      ⟨rfl, hall⟩ | ⟨l1, l2, rfl, hle, h1, h2⟩
    · exact ⟨[], rest, rfl, by simp, hall⟩
    · refine ⟨x :: l1, l2, by simp, ?_, h2⟩
      intro b hb
      rcases List.mem_cons.mp hb with rfl | hb
      · exact hle
      · exact h1 b hb

/-- C1 (counterexample): on the spec's own example — A `{score 0.9, risk
0.4}` before B `{score 0.9, risk 0.6}`, both surviving the filter after
`analyze` — `select_best_trade` returns B's signal, not A's: Rust's
`Iterator::max_by` keeps the LAST of equally-maximal elements, so the
claimed first-seen tie-break is false. -/
theorem c1_counterexample :
    select_best_trade (analyze_opportunities [oppA, oppB]).1
        ≠ some oppA.signal ∧
    select_best_trade (analyze_opportunities [oppA, oppB]).1
        = some oppB.signal := by
  constructor
  · norm_num [select_best_trade, analyze_opportunities, maxByScore,
      maxByScoreStep, oppA, oppB, List.filter, List.foldl]
    exact fun hc => Signal.noConfusion hc
  · norm_num [select_best_trade, analyze_opportunities, maxByScore,
      maxByScoreStep, oppA, oppB, List.filter, List.foldl]

/-- C1 (amended): `select_best_trade` filters to `risk_score < 0.5` and
returns the signal of the maximum-score survivor with ties broken by
LAST-seen order (everything after the chosen element scores strictly
less); on the A/B example both survive with adjusted risks 0.32 and 0.48
and B's signal is selected. -/
theorem c1_select_max_last_tie :
    (∀ (opps : List Opportunity) (sig : Signal),
       select_best_trade opps = some sig →
       ∃ l1 l2 o,
         opps.filter (fun o => o.risk_score < 1/2) = l1 ++ o :: l2 ∧
         o.signal = sig ∧ (∀ b ∈ l1, b.score ≤ o.score) ∧
         ∀ b ∈ l2, b.score < o.score) ∧
    (analyze_opportunities [oppA, oppB]).1.map (fun o => o.risk_score)
        = [8/25, 12/25] ∧
    ((8 : ℚ)/25 < 1/2 ∧ (12 : ℚ)/25 < 1/2) ∧
    select_best_trade (analyze_opportunities [oppA, oppB]).1
        = some oppB.signal := by
  refine ⟨?_,
    by norm_num [analyze_opportunities, oppA, oppB],
    ⟨by norm_num, by norm_num⟩,
    by norm_num [select_best_trade, analyze_opportunities, maxByScore,
      maxByScoreStep, oppA, oppB, List.filter, List.foldl]⟩
  intro opps sig h
  unfold select_best_trade at h
  obtain ⟨o, ho, hsig⟩ := Option.map_eq_some'.mp h
  obtain ⟨l1, l2, heq, h1, h2⟩ := maxByScore_spec _ o ho
  exact ⟨l1, l2, o, heq, hsig, h1, h2⟩

/-- C1 (witness): the tie-break characterisation applied to the singleton
list `[oppA]`, whose only element survives the filter. -/
theorem c1_select_max_last_tie_witness :
    ∃ l1 l2 o,
      ([oppA].filter (fun o => o.risk_score < 1/2)) = l1 ++ o :: l2 ∧
      o.signal = oppA.signal ∧ (∀ b ∈ l1, b.score ≤ o.score) ∧
      ∀ b ∈ l2, b.score < o.score :=
  c1_select_max_last_tie.1 [oppA] oppA.signal (by
    norm_num [select_best_trade, maxByScore, maxByScoreStep, oppA,
      List.filter, List.foldl])

/-- C5: `select_best_trade` returns `none` iff every opportunity has
`risk_score ≥ 0.5`; in particular it returns `none` on the empty list. -/
theorem c5_none_iff_all_risky :
    (∀ opps : List Opportunity,
       select_best_trade opps = none ↔ ∀ o ∈ opps, o.risk_score ≥ 1/2) ∧
    select_best_trade [] = none := by
  refine ⟨?_, rfl⟩
  intro opps
  unfold select_best_trade
  rw [Option.map_eq_none', maxByScore_eq_none_iff, List.filter_eq_nil_iff]
  simp [not_lt]

/-- Folding the panicking comparator over NaN-free scores cannot panic. -/
theorem maxByScoreF_ok (l : List OpportunityF) :
    ∀ acc : Option OpportunityF, (∀ o ∈ l, o.score ≠ FV.nan) →
      (∀ a, acc = some a → a.score ≠ FV.nan) →
      ∃ r, l.foldlM maxByScoreStepF acc = Except.ok r := by
  induction l with
  | nil => intro acc _ _; exact ⟨acc, rfl⟩
  | cons x rest ih =>
    intro acc hl hacc
    have hx : x.score ≠ FV.nan := hl x (List.mem_cons_self x rest)
    have hrest : ∀ o ∈ rest, o.score ≠ FV.nan := fun o ho =>
      hl o (List.mem_cons_of_mem x ho)
    cases acc with
    | none =>
      obtain ⟨r, hr⟩ := ih (some x) hrest
        (fun a ha => by cases ha; exact hx)
      exact ⟨r, by simpa [List.foldlM_cons, maxByScoreStepF] using hr⟩
    | some a =>
      have ha : a.score ≠ FV.nan := hacc a rfl
      obtain ⟨p, hp⟩ : ∃ p, a.score = FV.num p := by
        cases h : a.score with
        | nan => exact absurd h ha
        | num q => exact ⟨q, rfl⟩
      obtain ⟨q, hq⟩ : ∃ q, x.score = FV.num q := by
        cases h : x.score with
        | nan => exact absurd h hx
        | num q => exact ⟨q, rfl⟩
      rcases hc : compare p q with _ | _ | _
      all_goals
        first
        | (obtain ⟨r, hr⟩ := ih (some x) hrest
             (fun b hb => by cases hb; exact hx)
           exact ⟨r, by
             simpa [List.foldlM_cons, maxByScoreStepF, fcmp, hp, hq, hc]
               using hr⟩)
        | (obtain ⟨r, hr⟩ := ih (some a) hrest
             (fun b hb => by cases hb; exact ha)
           exact ⟨r, by
             simpa [List.foldlM_cons, maxByScoreStepF, fcmp, hp, hq, hc]
               using hr⟩)

/-- C10: whenever every opportunity surviving the `risk_score < 0.5` filter
has a non-NaN score, `select_best_trade`'s
`partial_cmp(..).unwrap()` comparator never panics — the NaN-faithful model
returns `Except.ok`; non-NaN scores are an unstated precondition of the
selection interface. -/
theorem c10_no_panic_on_non_nan (l : List OpportunityF)
    (h : ∀ o ∈ l.filter (fun o => fvLtHalf o.risk_score), o.score ≠ FV.nan) :
    ∃ r, select_best_tradeF l = Except.ok r := by
  obtain ⟨r, hr⟩ := maxByScoreF_ok
    (l.filter (fun o => fvLtHalf o.risk_score)) none h (by simp)
  refine ⟨Option.map (fun o => o.signal) r, ?_⟩
  unfold select_best_tradeF maxByScoreF
  rw [hr]
  rfl

/-- C10 (witness): the no-panic theorem applied to the empty list. -/
theorem c10_no_panic_on_non_nan_witness :
    ∃ r, select_best_tradeF [] = Except.ok r :=
  c10_no_panic_on_non_nan [] (by simp)

/-- C2 (counterexample): from the seeded ledger, Buy 0.1 BTC at price hint
1000 leaves USDT = 9899.9 (= 10000 - 0.1·1000·1.001), not the 9889.9 the
claim states. -/
theorem c2_counterexample :
    (execute (Signal.Buy "BTCUSDT" (some 1000) (1/10)) SimState.initial).1.usdt
        = 98999/10 ∧
    (98999 : ℚ)/10 ≠ 98899/10 := by
  constructor
  · norm_num [execute, buyUpdatePositions, SimState.initial]
  · norm_num

/-- C2 (amended): from the seeded ledger USDT=10000, BTC=0, Buy{0.1 @ 1000}
leaves USDT = 9899.9 and BTC = 0.1 with the position's entry price recorded
as cost/qty = 100.1/0.1 = 1001 (fee-inclusive), and the subsequent
Sell{0.1 @ 1100} returns realized PnL = 9.79 = (110 - 0.11) - 1001·0.1,
leaving USDT = 10009.79. -/
theorem c2_round_trip :
    execute (Signal.Buy "BTCUSDT" (some 1000) (1/10)) SimState.initial
      = ({ usdt := 98999/10, btc := 1/10, positions := [{
             symbol := "BTCUSDT", amount := 1/10, entry_price := 1001,
             unrealized_pnl := 0, market_type := "Spot", side := "Long" }] },
         0) ∧
    (1001 : ℚ) = ((1/10) * 1000 + (1/10) * 1000 * (1/1000)) / (1/10) ∧
    execute (Signal.Sell "BTCUSDT" (some 1100) (1/10))
        { usdt := 98999/10, btc := 1/10, positions := [{
            symbol := "BTCUSDT", amount := 1/10, entry_price := 1001,
            unrealized_pnl := 0, market_type := "Spot", side := "Long" }] }
      = ({ usdt := 1000979/100, btc := 0, positions := [] }, 979/100) := by
  refine ⟨?_, by norm_num, ?_⟩
  · norm_num [execute, buyUpdatePositions, SimState.initial]
  · norm_num [execute, sellUpdatePositions]

/-- C3 (code divergence at the failing input): a simulation Sell whose
price hint is missing, on a ledger holding enough BTC, returns 0 realized
PnL as claimed but does NOT leave the ledger unchanged — the BTC balance
has already been decremented by the quantity when the price check fires,
even though the code logs that the trade is skipped. -/
theorem c3_sell_zero_price_loses_btc :
    execute (Signal.Sell "BTCUSDT" none (1/10))
        { usdt := 10000, btc := 1/10, positions := [] }
      = ({ usdt := 10000, btc := 0, positions := [] }, 0) ∧
    (0 : ℚ) ≠ 1/10 := by
  constructor
  · norm_num [execute]
  · norm_num

/-- C4 (counterexample): in `Accumulating` with 5000 ms (and even 5999 ms)
elapsed since the last transition — i.e. at least 5 seconds — `is_stable`
returns `false`, contradicting the claim that 5 elapsed seconds suffice:
the code requires `elapsed().as_secs() > 5`. -/
theorem c4_counterexample :
    is_stable SystemState.Accumulating 5000 = false ∧
    is_stable SystemState.Accumulating 5999 = false := by
  exact ⟨rfl, rfl⟩

/-- C4 (amended): `is_stable` is true outside `Accumulating`; in
`Accumulating` it is true iff strictly more than 5 whole seconds have
elapsed since the last transition (`as_secs() > 5`), i.e. iff the elapsed
time is at least 6 seconds. -/
theorem c4_stable_iff :
    ∀ (s : SystemState) (elapsed_ms : Nat),
      is_stable s elapsed_ms = true ↔
        (s ≠ SystemState.Accumulating ∨ 6000 ≤ elapsed_ms) := by
  intro s ms
  cases s <;> simp [is_stable]
  omega

/-- C7: a self-transition is a no-op — the machine (state, counter matrix
and last-transition timestamp) is returned unchanged — and on an actual
transition to a different state only the single counter entry
`[current][new]` is incremented while every other entry is unchanged. -/
theorem c7_self_transition_noop :
    ∀ (m : StateMachine) (s : SystemState) (now : Nat),
      (m.current_state = s → transition_to m s now = m) ∧
      (m.current_state ≠ s →
        (transition_to m s now).current_state = s ∧
        (transition_to m s now).last_transition_time = now ∧
        (transition_to m s now).transition_matrix
            m.current_state.to_index s.to_index
          = m.transition_matrix m.current_state.to_index s.to_index + 1 ∧
        ∀ i j : Fin 5, ¬(i = m.current_state.to_index ∧ j = s.to_index) →
          (transition_to m s now).transition_matrix i j
            = m.transition_matrix i j) := by
  intro m s now
  constructor
  · intro h
    simp [transition_to, h]
  · intro h
    refine ⟨?_, ?_, ?_, ?_⟩
    · simp [transition_to, h]
    · simp [transition_to, h]
    · simp [transition_to, h]
    · intro i j hij
      simp [transition_to, h, hij]

/-- C7 (witness): transitioning the freshly booted machine to its current
state `Booting` returns it unchanged. -/
theorem c7_self_transition_noop_witness :
    transition_to (StateMachine.new 0) SystemState.Booting 5
      = StateMachine.new 0 :=
  (c7_self_transition_noop (StateMachine.new 0) SystemState.Booting 5).1 rfl

/-- Every `should_process` call bumps `total_received` by exactly one and
either leaves all three rejection counters unchanged or bumps exactly one
of them by exactly one. -/
theorem should_process_step (g : DataFilter) (e : MarketEvent) :
    (should_process g e).2.total_received = g.total_received + 1 ∧
    (((should_process g e).2.duplicate_count = g.duplicate_count ∧
      (should_process g e).2.out_of_order_count = g.out_of_order_count ∧
      (should_process g e).2.outlier_count = g.outlier_count) ∨
     ((should_process g e).2.duplicate_count = g.duplicate_count + 1 ∧
      (should_process g e).2.out_of_order_count = g.out_of_order_count ∧
      (should_process g e).2.outlier_count = g.outlier_count) ∨
     ((should_process g e).2.duplicate_count = g.duplicate_count ∧
      (should_process g e).2.out_of_order_count = g.out_of_order_count + 1 ∧
      (should_process g e).2.outlier_count = g.outlier_count) ∨
     ((should_process g e).2.duplicate_count = g.duplicate_count ∧
      (should_process g e).2.out_of_order_count = g.out_of_order_count ∧
      (should_process g e).2.outlier_count = g.outlier_count + 1)) := by
  cases e with
  | Trade t =>
    rcases hlp : g.last_price with _ | lp <;>
      simp only [should_process, filter_trade, hlp] <;>
      split_ifs <;> simp
  | AggrTrade a =>
    rcases hlp : g.last_price with _ | lp <;>
      simp only [should_process, filter_agg_trade, hlp] <;>
      split_ifs <;> simp
  | Other => simp [should_process]

/-- The rejection counters never overtake `total_received`. -/
theorem processEvents_counts (events : List MarketEvent) :
    ∀ f : DataFilter,
      f.duplicate_count + f.out_of_order_count + f.outlier_count
          ≤ f.total_received →
      (processEvents f events).duplicate_count
        + (processEvents f events).out_of_order_count
        + (processEvents f events).outlier_count
        ≤ (processEvents f events).total_received := by
  induction events with
  | nil => intro f h; exact h
  | cons e rest ih =>
    intro f h
    have hs := should_process_step f e
    have h1 := hs.1
    simp only [processEvents]
    apply ih
    rcases hs.2 with h2 | h2 | h2 | h2 <;> omega

/-- `get_quality_score` always lies in `[0, 100]` and is 100 on an empty
history. -/
theorem get_quality_score_bounds (f : DataFilter) :
    0 ≤ get_quality_score f ∧ get_quality_score f ≤ 100 ∧
    (f.total_received = 0 → get_quality_score f = 100) := by
  unfold get_quality_score
  by_cases h : f.total_received = 0
  · simp [h]
  · have ht : (0 : ℚ) < (f.total_received : ℚ) := by
      exact_mod_cast Nat.pos_of_ne_zero h
    have hle : ((f.total_received -
        (f.duplicate_count + f.out_of_order_count + f.outlier_count) : ℕ) : ℚ)
        ≤ (f.total_received : ℚ) := by
      exact_mod_cast Nat.sub_le _ _
    have hnonneg : (0 : ℚ) ≤ ((f.total_received -
        (f.duplicate_count + f.out_of_order_count + f.outlier_count) : ℕ) : ℚ) :=
      Nat.cast_nonneg _
    have hdiv : ((f.total_received -
        (f.duplicate_count + f.out_of_order_count + f.outlier_count) : ℕ) : ℚ)
        / (f.total_received : ℚ) ≤ 1 := (div_le_one ht).mpr hle
    have hdiv0 : (0 : ℚ) ≤ ((f.total_received -
        (f.duplicate_count + f.out_of_order_count + f.outlier_count) : ℕ) : ℚ)
        / (f.total_received : ℚ) := div_nonneg hnonneg (le_of_lt ht)
    simp only [h, if_false]
    refine ⟨by linarith, by linarith, fun hc => hc.elim⟩

/-- C6: starting from a fresh `DataFilter`, after any sequence of
`should_process` calls the invariant `total_received ≥ duplicate_count +
out_of_order_count + outlier_count` holds, `get_quality_score` lies in
`[0, 100]` and equals 100 when `total_received = 0`; moreover every single
call bumps `total_received` by exactly one and at most one rejection
counter by exactly one. -/
theorem c6_filter_invariant (th : ℚ) (events : List MarketEvent) :
    (processEvents (DataFilter.new th) events).duplicate_count
      + (processEvents (DataFilter.new th) events).out_of_order_count
      + (processEvents (DataFilter.new th) events).outlier_count
      ≤ (processEvents (DataFilter.new th) events).total_received ∧
    0 ≤ get_quality_score (processEvents (DataFilter.new th) events) ∧
    get_quality_score (processEvents (DataFilter.new th) events) ≤ 100 ∧
    ((processEvents (DataFilter.new th) events).total_received = 0 →
      get_quality_score (processEvents (DataFilter.new th) events) = 100) ∧
    ∀ (g : DataFilter) (e : MarketEvent),
      (should_process g e).2.total_received = g.total_received + 1 ∧
      (((should_process g e).2.duplicate_count = g.duplicate_count ∧
        (should_process g e).2.out_of_order_count = g.out_of_order_count ∧
        (should_process g e).2.outlier_count = g.outlier_count) ∨
       ((should_process g e).2.duplicate_count = g.duplicate_count + 1 ∧
        (should_process g e).2.out_of_order_count = g.out_of_order_count ∧
        (should_process g e).2.outlier_count = g.outlier_count) ∨
       ((should_process g e).2.duplicate_count = g.duplicate_count ∧
        (should_process g e).2.out_of_order_count = g.out_of_order_count + 1 ∧
        (should_process g e).2.outlier_count = g.outlier_count) ∨
       ((should_process g e).2.duplicate_count = g.duplicate_count ∧
        (should_process g e).2.out_of_order_count = g.out_of_order_count ∧
        (should_process g e).2.outlier_count = g.outlier_count + 1)) := by
  obtain ⟨hq0, hq1, hq2⟩ :=
    get_quality_score_bounds (processEvents (DataFilter.new th) events)
  exact ⟨processEvents_counts events (DataFilter.new th) (by
      simp [DataFilter.new]),
    hq0, hq1, hq2, should_process_step⟩

/-- C6 (witness): the invariant theorem applied to the empty event stream
on a fresh filter, whose quality score is 100. -/
theorem c6_filter_invariant_witness :
    get_quality_score (processEvents (DataFilter.new 1) []) = 100 :=
  (c6_filter_invariant 1 []).2.2.2.1 rfl

/-- C9: a trade rejected as out-of-order has already had `last_trade_id`
advanced to its `trade_id`; a trade rejected as a price outlier has had
both `last_trade_id` and `last_timestamp` advanced to its values while
`last_price` alone is left unchanged; the aggregated-trade path behaves
the same with `last_agg_trade_id`.  (Rejection kinds are identified by
which counter the call bumps.) -/
theorem c9_rejection_advances_refs (f : DataFilter) (t : TradeEvent)
    (a : AggrTradesEvent) :
    ((filter_trade f t).2.out_of_order_count = f.out_of_order_count + 1 →
      (filter_trade f t).2.last_trade_id = t.trade_id) ∧
    ((filter_trade f t).2.outlier_count = f.outlier_count + 1 →
      (filter_trade f t).2.last_trade_id = t.trade_id ∧
      (filter_trade f t).2.last_timestamp = t.event_time ∧
      (filter_trade f t).2.last_price = f.last_price) ∧
    ((filter_agg_trade f a).2.out_of_order_count = f.out_of_order_count + 1 →
      (filter_agg_trade f a).2.last_agg_trade_id = a.aggregated_trade_id) ∧
    ((filter_agg_trade f a).2.outlier_count = f.outlier_count + 1 →
      (filter_agg_trade f a).2.last_agg_trade_id = a.aggregated_trade_id ∧
      (filter_agg_trade f a).2.last_timestamp = a.event_time ∧
      (filter_agg_trade f a).2.last_price = f.last_price) := by
  refine ⟨?_, ?_, ?_, ?_⟩ <;>
    (rcases hlp : f.last_price with _ | lp <;>
      simp only [filter_trade, filter_agg_trade, hlp] <;>
      split_ifs <;> simp_all)

/-- C9 (witness): a concrete out-of-order rejection (fresh counters, last
timestamp 100, incoming trade id 2 at time 50) leaves `last_trade_id`
advanced to 2. -/
theorem c9_rejection_advances_refs_witness :
    (filter_trade
        { last_trade_id := 1, last_agg_trade_id := 0, last_timestamp := 100,
          last_price := none, outlier_threshold := 1, total_received := 3,
          duplicate_count := 0, out_of_order_count := 0, outlier_count := 0 }
        { trade_id := 2, event_time := 50, price := 10 }).2.last_trade_id
      = 2 :=
  (c9_rejection_advances_refs
      { last_trade_id := 1, last_agg_trade_id := 0, last_timestamp := 100,
        last_price := none, outlier_threshold := 1, total_received := 3,
        duplicate_count := 0, out_of_order_count := 0, outlier_count := 0 }
      { trade_id := 2, event_time := 50, price := 10 }
      { aggregated_trade_id := 0, event_time := 0, price := 0 }).1
    (by norm_num [filter_trade])

/-- Fuel-indexed workhorse for the chunk decomposition: consecutive
coverage, the per-chunk window bound, and the ceiling-division chunk
count. -/
theorem chunks_rec (n : Nat) :
    ∀ s e : Nat, e - s ≤ n → s < e →
      isConsecutiveCover s e (chunks s e) ∧
      (∀ c ∈ chunks s e, c.2 - c.1 ≤ MAX_WINDOW_MS) ∧
      (chunks s e).length = (e - s + (MAX_WINDOW_MS - 1)) / MAX_WINDOW_MS := by
  induction n with
  | zero => intro s e hn hse; exact absurd hse (by omega)
  | succ n ih =>
    intro s e hn hse
    have hW1 : 0 < MAX_WINDOW_MS := by simp only [MAX_WINDOW_MS]; omega
    rw [chunks, dif_pos hse]
    by_cases hW : e ≤ s + MAX_WINDOW_MS
    · rw [Nat.min_eq_right hW]
      have hempty : chunks e e = [] := by
        rw [chunks, dif_neg (lt_irrefl e)]
      rw [hempty]
      refine ⟨isConsecutiveCover.cons s e e [] hse (isConsecutiveCover.nil e),
        ?_, ?_⟩
      · intro c hc
        rw [List.mem_singleton] at hc
        subst hc
        simp only
        omega
      · simp only [List.length_cons, List.length_nil, MAX_WINDOW_MS] at *
        omega
    · push_neg at hW
      rw [Nat.min_eq_left (le_of_lt hW)]
      have hrec := ih (s + MAX_WINDOW_MS) e (by omega) (by omega)
      refine ⟨isConsecutiveCover.cons s e (s + MAX_WINDOW_MS) _
        (by omega) hrec.1, ?_, ?_⟩
      · intro c hc
        rcases List.mem_cons.mp hc with rfl | hc
        · simp only
          omega
        · exact hrec.2.1 c hc
      · rw [List.length_cons, hrec.2.2]
        simp only [MAX_WINDOW_MS] at *
        omega

/-- C8: for `start_ts < end_ts` the fetcher's chunk decomposition
consecutively covers `[start_ts, end_ts)` with windows of at most
3,600,000 ms each, and the number of chunks is
`ceil((end_ts - start_ts) / 3600000)`; a request for `[t, t + 2h)` yields
exactly the two chunks `[t, t+1h)` and `[t+1h, t+2h)`. -/
theorem c8_chunk_decomposition :
    ∀ s e : Nat, s < e →
      isConsecutiveCover s e (chunks s e) ∧
      (∀ c ∈ chunks s e, c.2 - c.1 ≤ MAX_WINDOW_MS) ∧
      (chunks s e).length = (e - s + (MAX_WINDOW_MS - 1)) / MAX_WINDOW_MS ∧
      ∀ t : Nat, chunks t (t + 7200000)
        = [(t, t + 3600000), (t + 3600000, t + 7200000)] := by
  intro s e h
  obtain ⟨h1, h2, h3⟩ := chunks_rec (e - s) s e le_rfl h
  refine ⟨h1, h2, h3, ?_⟩
  intro t
  rw [chunks, dif_pos (by omega)]
  rw [show min (t + MAX_WINDOW_MS) (t + 7200000) = t + 3600000 by
    simp only [MAX_WINDOW_MS]; omega]
  rw [chunks, dif_pos (by omega)]
  rw [show min (t + 3600000 + MAX_WINDOW_MS) (t + 7200000) = t + 7200000 by
    simp only [MAX_WINDOW_MS]; omega]
  rw [chunks, dif_neg (lt_irrefl (t + 7200000))]

/-- C8 (witness): the chunk decomposition applied at the concrete range
`[0, 2)` specialised to its two-hour example at `t = 5`. -/
theorem c8_chunk_decomposition_witness :
    chunks 5 (5 + 7200000) = [(5, 5 + 3600000), (5 + 3600000, 5 + 7200000)] :=
  (c8_chunk_decomposition 0 2 (by omega)).2.2.2 5

end SixTrading
